import Mathlib

/-!
Verification of the batch image resizer and converter (`src/img.py`).

The program is shallowly embedded: filesystem paths are lists of path
components, the filesystem is a `World` record holding the existing
directories, the existing regular files (in enumeration order), and the
decodable image content found at each path.  Python strings are Lean
`String`s, manipulated through their underlying character lists.
-/

namespace ImgTool

/-! ### Decimal rendering of counters

`get_unique_filepath` interpolates the loop counter into a filename with
an f-string, i.e. with the decimal representation of a Python integer.
Lean's `Nat.repr` produces exactly those digits.  We prove `Nat.repr`
injective, which the termination argument for the resolver loop needs. -/

/-- Decimal digit list of `n`, most significant digit first; this is the
reference form of `Nat.toDigits 10 n` used in proofs. -/
def decDigits (n : Nat) : List Char :=
  if _h : n < 10 then [Nat.digitChar n]
  else decDigits (n / 10) ++ [Nat.digitChar (n % 10)]
decreasing_by exact Nat.div_lt_self (by omega) (by omega)

/-- Numeric value of a decimal digit character. -/
def digitVal (c : Char) : Nat := c.toNat - 48

/-- Value of a most-significant-first decimal digit list. -/
def decVal (l : List Char) : Nat := l.foldl (fun a c => 10 * a + digitVal c) 0

theorem digitVal_digitChar : ∀ m, m < 10 → digitVal (Nat.digitChar m) = m := by decide

theorem decVal_decDigits (n : Nat) : decVal (decDigits n) = n := by
  induction n using Nat.strong_induction_on with
  | _ n ih =>
    rw [decDigits]
    by_cases h : n < 10
    · simp only [dif_pos h]
      simp [decVal, digitVal_digitChar n h]
    · simp only [dif_neg h]
      have hlt : n / 10 < n := Nat.div_lt_self (by omega) (by omega)
      have hmod : n % 10 < 10 := Nat.mod_lt _ (by omega)
      simp only [decVal, List.foldl_append, List.foldl_cons, List.foldl_nil]
      have := ih (n / 10) hlt
      simp only [decVal] at this
      rw [this, digitVal_digitChar _ hmod]
      omega

theorem toDigitsCore_eq_decDigits :
    ∀ (fuel n : Nat) (ds : List Char), n < fuel →
      Nat.toDigitsCore 10 fuel n ds = decDigits n ++ ds := by
  intro fuel
  induction fuel with
  | zero => intro n ds h; omega
  | succ f ih =>
    intro n ds h
    by_cases h10 : n / 10 = 0
    · have hn : n < 10 := by omega
      rw [decDigits]
      simp [Nat.toDigitsCore, h10, dif_pos hn, Nat.mod_eq_of_lt hn]
    · have hge : 10 ≤ n := by omega
      have hlt : n / 10 < f := by
        have : n / 10 < n := Nat.div_lt_self (by omega) (by omega)
        omega
      rw [decDigits]
      simp only [Nat.toDigitsCore, h10, if_neg h10, dif_neg (by omega : ¬ n < 10)]
      rw [ih (n / 10) (Nat.digitChar (n % 10) :: ds) hlt]
      simp

theorem repr_eq_decDigits (n : Nat) : Nat.repr n = (decDigits n).asString := by
  show (Nat.toDigits 10 n).asString = (decDigits n).asString
  rw [Nat.toDigits, toDigitsCore_eq_decDigits (n + 1) n [] (by omega), List.append_nil]

theorem natRepr_injective : Function.Injective Nat.repr := by
  intro m n h
  rw [repr_eq_decDigits, repr_eq_decDigits] at h
  have hd : decDigits m = decDigits n := by
    have := congrArg String.data h
    simpa [List.asString] using this
  have := congrArg decVal hd
  rwa [decVal_decDigits, decVal_decDigits] at this

/-! ### Strings and paths -/

/-- The double-quote character. -/
def dq : Char := Char.ofNat 34

/-- The single-quote character. -/
def sq : Char := Char.ofNat 39

/-- Python `str.strip(q)` for a one-character argument `q`: removes every
leading and every trailing occurrence of `q`. -/
def pyStripChar (q : Char) (s : String) : String :=
  String.mk (((s.toList.dropWhile (fun c => c == q)).reverse.dropWhile
    (fun c => c == q)).reverse)

/-- `clean_path = p_str.strip('"').strip("'")` (src/img.py line 56). -/
def cleanPath (p_str : String) : String := pyStripChar sq (pyStripChar dq p_str)

/-- Index (from the left) of the last occurrence of a dot in `l`, mirroring
Python `str.rfind(".")` when it returns a non-negative index. -/
def lastDotIndex (l : List Char) : Option Nat :=
  match l.reverse.findIdx? (fun c => c == '.') with
  | none => none
  | some j => some (l.length - 1 - j)

/-- `pathlib.PurePath.suffix` of a single filename component: the substring
from the last dot, provided the dot is neither the first nor the last
character; otherwise the empty string. -/
def pySuffix (name : String) : String :=
  match lastDotIndex name.toList with
  | none => ""
  | some i =>
    if 0 < i ∧ i < name.toList.length - 1 then String.mk (name.toList.drop i)
    else ""

/-- `pathlib.PurePath.stem` of a single filename component: everything
before the last dot under the same guard as `pySuffix`, else the whole
name. -/
def pyStem (name : String) : String :=
  match lastDotIndex name.toList with
  | none => name
  | some i =>
    if 0 < i ∧ i < name.toList.length - 1 then String.mk (name.toList.take i)
    else name

/-- A filesystem path, as its list of components. -/
abbrev Path := List String

/-- Split a character list at every occurrence of `sep`. -/
def splitOnChar (sep : Char) : List Char → List (List Char)
  | [] => [[]]
  | c :: rest =>
    let r := splitOnChar sep rest
    if c == sep then [] :: r
    else
      match r with
      | [] => [[c]]
      | h :: t => (c :: h) :: t

/-- `pathlib.Path(s)`: the string split into components at `/`. -/
def parsePath (s : String) : Path := (splitOnChar (Char.ofNat 47) s.toList).map String.mk

/-- `p.name`: the last path component (`""` for an empty path). -/
def pyName (p : Path) : String := p.getLast?.getD ""

/-! ### The filesystem model -/

/-- Pixel dimensions of a decoded image (`img.size` after `convert("RGB")`). -/
structure Img where
  width : Nat
  height : Nat
deriving DecidableEq

/-- Filesystem state: the existing directories, the existing regular files
in enumeration order, and the decodable image content by path.  A path
absent from `images` fails to decode (corrupt or not an image). -/
structure World where
  dirs : List Path
  files : List Path
  images : List (Path × Img)
deriving DecidableEq

/-- `Path.exists()`: true for an existing file or directory. -/
def World.pathExists (w : World) (p : Path) : Bool :=
  decide (p ∈ w.files ∨ p ∈ w.dirs)

/-- `Image.open` followed by `convert("RGB")`: the decoded image at `p`,
or `none` when decoding raises. -/
def World.openImage (w : World) (p : Path) : Option Img :=
  (w.images.find? (fun e => e.1 == p)).map (fun e => e.2)

/-- `output_dir.mkdir(exist_ok=True)` (src/img.py line 84). -/
def World.mkdirExistOk (w : World) (d : Path) : World :=
  if d ∈ w.dirs then w else { w with dirs := w.dirs ++ [d] }

/-! ### `get_unique_filepath` (src/img.py lines 21-36) -/

/-- The candidate path `directory / f"{stem}_{counter}{suffix}"` probed by
the collision-avoidance loop. -/
def candPath (directory : Path) (stem sfx : String) (counter : Nat) : Path :=
  directory ++ [stem ++ "_" ++ Nat.repr counter ++ sfx]

/-- The `while True` loop of `get_unique_filepath` (src/img.py lines
31-36), with explicit fuel.  `none` models non-termination; the fuel
chosen in `get_unique_filepath` is proved sufficient below. -/
def uniqueLoop (w : World) (directory : Path) (stem sfx : String) :
    Nat → Nat → Option Path
  | 0, _ => none
  | fuel + 1, counter =>
    if w.pathExists (candPath directory stem sfx counter) then
      uniqueLoop w directory stem sfx fuel (counter + 1)
    else
      some (candPath directory stem sfx counter)

/-- `get_unique_filepath(directory, filename)` (src/img.py lines 21-36). -/
def get_unique_filepath (w : World) (directory : Path) (filename : String) :
    Option Path :=
  let file_path := directory ++ [filename]
  if w.pathExists file_path then
    uniqueLoop w directory (pyStem filename) (pySuffix filename)
      (w.files.length + w.dirs.length + 1) 1
  else
    some file_path

/-! ### Configuration (src/img.py lines 42-49) -/

/-- The supported extensions `IMAGE_EXTENSIONS` (src/img.py line 19). -/
def IMAGE_EXTENSIONS : List String :=
  [".jpg", ".jpeg", ".png", ".webp", ".bmp", ".tiff"]

/-- The three settings chosen from `mode_type` at the top of
`process_images`. -/
structure SaveConfig where
  save_format : String
  save_extension : String
  output_folder_name : String
deriving DecidableEq

/-- `if mode_type in ["webp", "w"]: ... else: ...` (src/img.py lines 42-49). -/
def configFor (mode_type : String) : SaveConfig :=
  if mode_type ∈ (["webp", "w"] : List String) then
    ⟨"WebP", ".webp", "webp"⟩
  else
    ⟨"JPEG", ".jpg", "jpg"⟩

/-! ### Collection (src/img.py lines 55-70) -/

/-- Python `str.lower()`, characterwise. -/
def lowerStr (s : String) : String := String.mk (s.toList.map Char.toLower)

/-- `child.suffix.lower() in IMAGE_EXTENSIONS`. -/
def isSupported (p : Path) : Bool :=
  decide (lowerStr (pySuffix (pyName p)) ∈ IMAGE_EXTENSIONS)

/-- Whether `c` is an immediate child of directory `d`. -/
def isChildOf (d : Path) (c : Path) : Bool :=
  c.dropLast == d && c.length == d.length + 1

/-- `path_obj.iterdir()`: the immediate children (files and
subdirectories) of `d`, in enumeration order. -/
def World.iterdir (w : World) (d : Path) : List Path :=
  (w.files ++ w.dirs).filter (isChildOf d)

/-- The diagnostic printed for an input that is neither an existing
directory nor an existing file (src/img.py line 70). -/
def ignoreMsg (clean_path : String) : String :=
  "⚠️ 無視: " ++ clean_path ++ " (存在しないか対象外)"

/-- One iteration of the collection loop (src/img.py lines 55-70), acting
on the accumulated `(target_files, diagnostics)`. -/
def collectStep (w : World) (acc : List Path × List String) (p_str : String) :
    List Path × List String :=
  let clean_path := cleanPath p_str
  if clean_path = "" then acc
  else
    let path_obj := parsePath clean_path
    if path_obj ∈ w.dirs then
      (acc.1 ++ (w.iterdir path_obj).filter
        (fun child => decide (child ∈ w.files) && isSupported child), acc.2)
    else if path_obj ∈ w.files then
      if isSupported path_obj then (acc.1 ++ [path_obj], acc.2) else acc
    else
      (acc.1, acc.2 ++ [ignoreMsg clean_path])

/-- The whole collection phase: `target_files` and the ignore
diagnostics, over all raw input strings. -/
def collect (w : World) (path_strings : List String) : List Path × List String :=
  path_strings.foldl (collectStep w) ([], [])

/-! ### Conversion (src/img.py lines 79-115) -/

/-- `new_height = int((max_width / width) * height)` (src/img.py line 92),
with the Python float division modelled as exact division; `int` truncates
toward zero, which on these nonnegative values is the floor, so the value
is `max_width * height / width` in `Nat`. -/
def new_height (max_width width height : Nat) : Nat :=
  max_width * height / width

/-- The dimensions after the conditional resize (src/img.py lines 90-93):
only an image strictly wider than `max_width` is resized. -/
def resizedSize (max_width : Nat) (img : Img) : Img :=
  if max_width < img.width then
    ⟨max_width, new_height max_width img.width img.height⟩
  else
    img

/-- The body of the per-file `try` block (src/img.py lines 82-110): create
the output folder, decode, resize, resolve a collision-free output path and
save.  Returns the new filesystem state and either the written output path
or the caught error message. -/
def processOne (max_width : Nat) (cfg : SaveConfig) (w : World)
    (image_path : Path) : World × Except String Path :=
  let output_dir := image_path.dropLast ++ [cfg.output_folder_name]
  let w1 := w.mkdirExistOk output_dir
  match w1.openImage image_path with
  | none => (w1, .error ("cannot identify image file " ++ pyName image_path))
  | some img =>
    let resized := resizedSize max_width img
    match get_unique_filepath w1 output_dir
        (pyStem (pyName image_path) ++ cfg.save_extension) with
    | none => (w1, .error "unreachable")
    | some output_path =>
      ({ w1 with
          files := w1.files ++ [output_path]
          images := w1.images ++ [(output_path, resized)] },
        .ok output_path)

/-- The per-file error line `f"❌ エラー ({image_path.name}): {e}"`
(src/img.py line 113). -/
def errorLine (image_path : Path) (e : String) : String :=
  "❌ エラー (" ++ pyName image_path ++ "): " ++ e

/-- One iteration of the conversion loop (src/img.py lines 80-113):
process the file inside `try`, then either bump `success_count` or record
the error line. -/
def convertStep (max_width : Nat) (cfg : SaveConfig)
    (acc : World × Nat × List String) (image_path : Path) :
    World × Nat × List String :=
  match processOne max_width cfg acc.1 image_path with
  | (w', .ok _) => (w', acc.2.1 + 1, acc.2.2)
  | (w', .error e) => (w', acc.2.1, acc.2.2 ++ [errorLine image_path e])

/-- The conversion loop (src/img.py lines 79-115): fold over the collected
files, threading the filesystem, counting successes and recording the
per-file error lines. -/
def convertAll (max_width : Nat) (cfg : SaveConfig) (w : World)
    (targets : List Path) : World × Nat × List String :=
  targets.foldl (convertStep max_width cfg) (w, 0, [])

/-- `process_images(path_strings, max_width, mode_type)` (src/img.py lines
38-115): collect, then convert every collected file.  Returns the final
filesystem, the success count, the total count, and the error lines. -/
def process_images (w : World) (path_strings : List String) (max_width : Nat)
    (mode_type : String) : World × Nat × Nat × List String :=
  let cfg := configFor mode_type
  let (target_files, _) := collect w path_strings
  if target_files = [] then (w, 0, 0, [])
  else
    let (w', n, errs) := convertAll max_width cfg w target_files
    (w', n, target_files.length, errs)

/-! ### Lemmas about the filename resolver -/

theorem candPath_injective (directory : Path) (stem sfx : String) :
    Function.Injective (candPath directory stem sfx) := by
  intro c c' h
  have h1 : stem ++ "_" ++ Nat.repr c ++ sfx = stem ++ "_" ++ Nat.repr c' ++ sfx := by
    have h0 := List.append_cancel_left h
    simpa using h0
  have h2 : (stem.data ++ "_".data) ++ (Nat.repr c).data ++ sfx.data =
      (stem.data ++ "_".data) ++ (Nat.repr c').data ++ sfx.data :=
    congrArg String.data h1
  have h3 := List.append_cancel_left (List.append_cancel_right h2)
  exact natRepr_injective (String.ext h3)

theorem exists_fresh {α : Type} [DecidableEq α] (L : List α) (f : Nat → α)
    (hf : Function.Injective f) : ∃ k, k ≤ L.length ∧ f k ∉ L := by
  by_contra hcon
  push_neg at hcon
  have hsub : (Finset.range (L.length + 1)).image f ⊆ L.toFinset := by
    intro x hx
    simp only [Finset.mem_image, Finset.mem_range] at hx
    obtain ⟨k, hk, rfl⟩ := hx
    exact List.mem_toFinset.mpr (hcon k (by omega))
  have hcard := Finset.card_le_card hsub
  rw [Finset.card_image_of_injective _ hf, Finset.card_range] at hcard
  have := L.toFinset_card_le
  omega

theorem uniqueLoop_some (w : World) (directory : Path) (stem sfx : String) :
    ∀ (fuel counter : Nat) (p : Path),
      uniqueLoop w directory stem sfx fuel counter = some p →
      ∃ k, k < fuel ∧ p = candPath directory stem sfx (counter + k) ∧
        w.pathExists p = false ∧
        ∀ j, j < k → w.pathExists (candPath directory stem sfx (counter + j)) = true := by
  intro fuel
  induction fuel with
  | zero => intro counter p h; simp [uniqueLoop] at h
  | succ f ih =>
    intro counter p h
    rw [uniqueLoop] at h
    cases hc : w.pathExists (candPath directory stem sfx counter) with
    | true =>
      rw [hc] at h
      simp only [if_true] at h
      obtain ⟨k, hk, hp, hnot, hall⟩ := ih (counter + 1) p h
      refine ⟨k + 1, by omega, ?_, hnot, ?_⟩
      · rw [hp, show counter + 1 + k = counter + (k + 1) by omega]
      · intro j hj
        match j with
        | 0 => simpa using hc
        | j' + 1 =>
          have := hall j' (by omega)
          rwa [show counter + 1 + j' = counter + (j' + 1) by omega] at this
    | false =>
      rw [hc] at h
      simp only [Bool.false_eq_true, if_false, Option.some.injEq] at h
      subst h
      exact ⟨0, by omega, by rw [Nat.add_zero], hc, fun j hj => absurd hj (by omega)⟩

theorem uniqueLoop_total (w : World) (directory : Path) (stem sfx : String) :
    ∀ (fuel counter : Nat),
      (∃ k, k < fuel ∧
        w.pathExists (candPath directory stem sfx (counter + k)) = false) →
      (uniqueLoop w directory stem sfx fuel counter).isSome = true := by
  intro fuel
  induction fuel with
  | zero => intro counter h; omega
  | succ f ih =>
    intro counter ⟨k, hk, hfree⟩
    rw [uniqueLoop]
    cases hc : w.pathExists (candPath directory stem sfx counter) with
    | true =>
      simp only [if_true]
      apply ih
      match k with
      | 0 => rw [Nat.add_zero] at hfree; rw [hc] at hfree; exact absurd hfree (by simp)
      | k' + 1 =>
        exact ⟨k', by omega, by
          rwa [show counter + 1 + k' = counter + (k' + 1) by omega]⟩
    | false => simp

theorem get_unique_filepath_isSome (w : World) (directory : Path)
    (filename : String) :
    (get_unique_filepath w directory filename).isSome = true := by
  simp only [get_unique_filepath]
  cases hex : w.pathExists (directory ++ [filename]) with
  | false => simp
  | true =>
    rw [if_pos rfl]
    apply uniqueLoop_total
    have hinj : Function.Injective
        (fun k => candPath directory (pyStem filename) (pySuffix filename) (1 + k)) := by
      intro a b hab
      have := candPath_injective directory (pyStem filename) (pySuffix filename) hab
      omega
    obtain ⟨k, hk, hfree⟩ := exists_fresh (w.files ++ w.dirs) _ hinj
    refine ⟨k, by simp only [List.length_append] at hk; omega, ?_⟩
    simp only [List.mem_append] at hfree
    simpa [World.pathExists] using hfree

theorem get_unique_filepath_fresh (w : World) (directory : Path)
    (filename : String) (p : Path)
    (h : get_unique_filepath w directory filename = some p) :
    w.pathExists p = false := by
  simp only [get_unique_filepath] at h
  cases hex : w.pathExists (directory ++ [filename]) with
  | false =>
    rw [hex] at h
    simp only [Bool.false_eq_true, if_false, Option.some.injEq] at h
    rw [← h]; exact hex
  | true =>
    rw [hex] at h
    simp only [if_true] at h
    obtain ⟨k, _, _, hnot, _⟩ := uniqueLoop_some w directory _ _ _ _ p h
    exact hnot

theorem get_unique_filepath_shape (w : World) (directory : Path)
    (filename : String) (p : Path)
    (h : get_unique_filepath w directory filename = some p) :
    p = directory ++ [filename] ∨
      ∃ c, 1 ≤ c ∧ p = candPath directory (pyStem filename) (pySuffix filename) c := by
  simp only [get_unique_filepath] at h
  cases hex : w.pathExists (directory ++ [filename]) with
  | false =>
    rw [hex] at h
    simp only [Bool.false_eq_true, if_false, Option.some.injEq] at h
    exact Or.inl h.symm
  | true =>
    rw [hex] at h
    simp only [if_true] at h
    obtain ⟨k, _, hp, _, _⟩ := uniqueLoop_some w directory _ _ _ _ p h
    exact Or.inr ⟨1 + k, by omega, hp⟩

/-! ### Claim theorems -/

/-- C1: `get_unique_filepath` returns `directory/desiredFilename` unchanged
when that path does not exist; otherwise it returns
`directory/{stem}_{counter}{extension}` for the smallest counter ≥ 1 whose
path does not exist; the returned path never names an existing file; and
with `dir/a.jpg` and `dir/a_1.jpg` both existing it returns `dir/a_2.jpg`. -/
theorem C1_filename_resolver_correct :
    (∀ (w : World) (directory : Path) (filename : String),
      (w.pathExists (directory ++ [filename]) = false →
        get_unique_filepath w directory filename = some (directory ++ [filename])) ∧
      (w.pathExists (directory ++ [filename]) = true →
        ∃ c, 1 ≤ c ∧
          get_unique_filepath w directory filename =
            some (candPath directory (pyStem filename) (pySuffix filename) c) ∧
          w.pathExists (candPath directory (pyStem filename) (pySuffix filename) c)
            = false ∧
          ∀ c', 1 ≤ c' → c' < c →
            w.pathExists (candPath directory (pyStem filename) (pySuffix filename) c')
              = true) ∧
      (∀ p, get_unique_filepath w directory filename = some p →
        w.pathExists p = false)) ∧
    get_unique_filepath ⟨[], [["dir", "a.jpg"], ["dir", "a_1.jpg"]], []⟩
      ["dir"] "a.jpg" = some ["dir", "a_2.jpg"] := by
  refine ⟨fun w directory filename => ⟨?_, ?_, ?_⟩, by decide⟩
  · intro h
    simp only [get_unique_filepath]
    rw [h]
    simp
  · intro hex
    obtain ⟨p, hp⟩ := Option.isSome_iff_exists.mp
      (get_unique_filepath_isSome w directory filename)
    have hp' := hp
    simp only [get_unique_filepath] at hp'
    rw [hex] at hp'
    simp only [if_true] at hp'
    obtain ⟨k, _, hpc, hnot, hall⟩ := uniqueLoop_some w directory _ _ _ _ p hp'
    refine ⟨1 + k, by omega, by rw [← hpc]; exact hp, by rw [← hpc]; exact hnot, ?_⟩
    intro c' h1 hlt
    have := hall (c' - 1) (by omega)
    rwa [show 1 + (c' - 1) = c' by omega] at this
  · exact get_unique_filepath_fresh w directory filename

/-- C1 witness: in an empty directory the desired name `b.jpg` is returned
unchanged; the suffixing behaviour is exercised by the closed `a_2.jpg`
conjunct of the theorem itself. -/
theorem C1_filename_resolver_correct_witness :
    get_unique_filepath ⟨[], [], []⟩ ["dir"] "b.jpg" = some ["dir", "b.jpg"] ∧
    get_unique_filepath ⟨[], [["dir", "a.jpg"], ["dir", "a_1.jpg"]], []⟩
      ["dir"] "a.jpg" = some ["dir", "a_2.jpg"] :=
  ⟨(C1_filename_resolver_correct.1 ⟨[], [], []⟩ ["dir"] "b.jpg").1 (by decide),
   C1_filename_resolver_correct.2⟩

/-- C9: the resolver terminates for every directory and desired filename:
the collision loop, modelled with fuel exceeding the (finite) number of
existing paths, always returns a path, despite having no upper bound on
the counter. -/
theorem C9_filename_resolver_terminates :
    ∀ (w : World) (directory : Path) (filename : String),
      (get_unique_filepath w directory filename).isSome = true :=
  fun w directory filename => get_unique_filepath_isSome w directory filename

/-- C3: an image whose width is at most `max_width` is left at its original
dimensions, whatever its height. -/
theorem C3_no_upscaling :
    ∀ (max_width : Nat) (img : Img), img.width ≤ max_width →
      resizedSize max_width img = img := by
  intro max_width img h
  simp only [resizedSize]
  rw [if_neg (by omega)]

/-- C3 witness: an image of width 800 (and height 5000) with
`max_width = 1200` keeps its dimensions. -/
theorem C3_no_upscaling_witness :
    resizedSize 1200 ⟨800, 5000⟩ = ⟨800, 5000⟩ :=
  C3_no_upscaling 1200 ⟨800, 5000⟩ (by decide)

/-- C10: exactly the mode strings "webp" and "w" select WebP output; every
other string, including "jpg", "jpeg" and case variants, selects JPEG
output with extension ".jpg" and folder "jpg". -/
theorem C10_format_fallback :
    (∀ mode_type : String, mode_type ≠ "webp" → mode_type ≠ "w" →
      configFor mode_type = ⟨"JPEG", ".jpg", "jpg"⟩) ∧
    configFor "webp" = ⟨"WebP", ".webp", "webp"⟩ ∧
    configFor "w" = ⟨"WebP", ".webp", "webp"⟩ := by
  refine ⟨fun mode_type h1 h2 => ?_, by decide, by decide⟩
  simp only [configFor]
  rw [if_neg (by simp [h1, h2])]

/-- C10 witness: the strings "WEBP", "jpg" and "jpeg" all select JPEG
output. -/
theorem C10_format_fallback_witness :
    configFor "WEBP" = ⟨"JPEG", ".jpg", "jpg"⟩ ∧
    configFor "jpg" = ⟨"JPEG", ".jpg", "jpg"⟩ ∧
    configFor "jpeg" = ⟨"JPEG", ".jpg", "jpg"⟩ :=
  ⟨C10_format_fallback.1 "WEBP" (by decide) (by decide),
   C10_format_fallback.1 "jpg" (by decide) (by decide),
   C10_format_fallback.1 "jpeg" (by decide) (by decide)⟩

/-! ### Lemmas about the conversion loop -/

theorem mkdirExistOk_files (w : World) (d : Path) :
    (w.mkdirExistOk d).files = w.files := by
  simp only [World.mkdirExistOk]
  split <;> rfl

theorem mkdirExistOk_images (w : World) (d : Path) :
    (w.mkdirExistOk d).images = w.images := by
  simp only [World.mkdirExistOk]
  split <;> rfl

theorem processOne_error (max_width : Nat) (cfg : SaveConfig) (w : World)
    (image_path : Path) (w' : World) (e : String)
    (h : processOne max_width cfg w image_path = (w', .error e)) :
    w'.files = w.files ∧ w'.images = w.images := by
  simp only [processOne] at h
  split at h
  · rw [Prod.mk.injEq] at h
    rw [← h.1, mkdirExistOk_files, mkdirExistOk_images]
    exact ⟨rfl, rfl⟩
  · split at h
    · rw [Prod.mk.injEq] at h
      rw [← h.1, mkdirExistOk_files, mkdirExistOk_images]
      exact ⟨rfl, rfl⟩
    · rw [Prod.mk.injEq] at h
      exact absurd h.2 (by simp)

theorem processOne_ok (max_width : Nat) (cfg : SaveConfig) (w : World)
    (image_path : Path) (w' : World) (p : Path)
    (h : processOne max_width cfg w image_path = (w', .ok p)) :
    w'.files = w.files ++ [p] ∧ p ∉ w.files ∧
      get_unique_filepath (w.mkdirExistOk (image_path.dropLast ++ [cfg.output_folder_name]))
        (image_path.dropLast ++ [cfg.output_folder_name])
        (pyStem (pyName image_path) ++ cfg.save_extension) = some p := by
  simp only [processOne] at h
  split at h
  · rw [Prod.mk.injEq] at h
    exact absurd h.2 (by simp)
  · rename_i img hop
    split at h
    · rw [Prod.mk.injEq] at h
      exact absurd h.2 (by simp)
    · rename_i op hgu
      rw [Prod.mk.injEq] at h
      obtain ⟨hw, hp⟩ := h
      have hpop : p = op := by
        have := congrArg (fun x => match x with | .ok q => q | .error _ => p) hp
        simpa using this.symm
      subst hpop
      have hfresh := get_unique_filepath_fresh _ _ _ _ hgu
      have hnot : p ∉ w.files := by
        simp only [World.pathExists, decide_eq_false_iff_not] at hfresh
        rw [mkdirExistOk_files] at hfresh
        exact fun hc => hfresh (Or.inl hc)
      refine ⟨?_, hnot, hgu⟩
      rw [← hw]
      simp [mkdirExistOk_files]

theorem convertStep_count (max_width : Nat) (cfg : SaveConfig)
    (acc : World × Nat × List String) (image_path : Path) :
    (convertStep max_width cfg acc image_path).2.1 +
      (convertStep max_width cfg acc image_path).2.2.length =
      acc.2.1 + acc.2.2.length + 1 := by
  simp only [convertStep]
  split <;> simp <;> omega

theorem convertFold_count (max_width : Nat) (cfg : SaveConfig) :
    ∀ (targets : List Path) (acc : World × Nat × List String),
      (targets.foldl (convertStep max_width cfg) acc).2.1 +
        (targets.foldl (convertStep max_width cfg) acc).2.2.length =
        acc.2.1 + acc.2.2.length + targets.length := by
  intro targets
  induction targets with
  | nil => intro acc; simp
  | cons t ts ih =>
    intro acc
    rw [List.foldl_cons, ih (convertStep max_width cfg acc t),
      convertStep_count]
    simp only [List.length_cons]
    omega

theorem convertFold_errors (max_width : Nat) (cfg : SaveConfig) :
    ∀ (targets : List Path) (acc : World × Nat × List String) (e : String),
      e ∈ (targets.foldl (convertStep max_width cfg) acc).2.2 →
      e ∈ acc.2.2 ∨ ∃ f ∈ targets, ∃ msg, e = errorLine f msg := by
  intro targets
  induction targets with
  | nil => intro acc e he; exact Or.inl he
  | cons t ts ih =>
    intro acc e he
    rw [List.foldl_cons] at he
    rcases ih (convertStep max_width cfg acc t) e he with hmem | ⟨f, hf, msg, hmsg⟩
    · simp only [convertStep] at hmem
      split at hmem
      · exact Or.inl hmem
      · rename_i e' heq
        rw [List.mem_append] at hmem
        rcases hmem with hmem | hmem
        · exact Or.inl hmem
        · simp only [List.mem_singleton] at hmem
          exact Or.inr ⟨t, List.mem_cons_self t ts, _, hmem⟩
    · exact Or.inr ⟨f, List.mem_cons_of_mem t hf, msg, hmsg⟩

/-- C4: the conversion loop never aborts: every file in the batch
contributes exactly one outcome, so successes plus recorded error lines
equal the batch size; every error line names the file it came from; and a
six-file batch with one corrupt file yields 5 successes and one error line
naming the corrupt file.  (The embedded loop is a total function: no
exception escapes the batch.) -/
theorem C4_failure_isolation :
    (∀ (max_width : Nat) (cfg : SaveConfig) (w : World) (targets : List Path),
      (convertAll max_width cfg w targets).2.1 +
        (convertAll max_width cfg w targets).2.2.length = targets.length ∧
      ∀ e ∈ (convertAll max_width cfg w targets).2.2,
        ∃ f ∈ targets, ∃ msg, e = errorLine f msg) ∧
    (convertAll 1200 (configFor "jpeg")
        ⟨[["d"]],
         [["d", "a.jpg"], ["d", "b.jpg"], ["d", "c.jpg"], ["d", "d.jpg"],
          ["d", "e.jpg"], ["d", "f.jpg"]],
         [(["d", "a.jpg"], ⟨4, 3⟩), (["d", "b.jpg"], ⟨4, 3⟩),
          (["d", "d.jpg"], ⟨4, 3⟩), (["d", "e.jpg"], ⟨4, 3⟩),
          (["d", "f.jpg"], ⟨4, 3⟩)]⟩
        [["d", "a.jpg"], ["d", "b.jpg"], ["d", "c.jpg"], ["d", "d.jpg"],
         ["d", "e.jpg"], ["d", "f.jpg"]]).2 =
      (5, ["❌ エラー (c.jpg): cannot identify image file c.jpg"]) := by
  refine ⟨fun max_width cfg w targets => ⟨?_, ?_⟩, by decide⟩
  · have := convertFold_count max_width cfg targets (w, 0, [])
    simpa [convertAll] using this
  · intro e he
    rcases convertFold_errors max_width cfg targets (w, 0, []) e he with hmem | hgood
    · simp at hmem
    · exact hgood

/-- C4 witness: on the six-file batch with `c.jpg` corrupt, successes plus
error lines add up to six, and the single error line is the error line of
one of the batch files. -/
theorem C4_failure_isolation_witness :
    ((convertAll 1200 (configFor "jpeg")
        ⟨[["d"]], [["d", "a.jpg"], ["d", "c.jpg"]],
         [(["d", "a.jpg"], ⟨4, 3⟩)]⟩
        [["d", "a.jpg"], ["d", "c.jpg"]]).2.1 +
      (convertAll 1200 (configFor "jpeg")
        ⟨[["d"]], [["d", "a.jpg"], ["d", "c.jpg"]],
         [(["d", "a.jpg"], ⟨4, 3⟩)]⟩
        [["d", "a.jpg"], ["d", "c.jpg"]]).2.2.length = 2) ∧
    ∃ f ∈ ([["d", "a.jpg"], ["d", "c.jpg"]] : List Path), ∃ msg,
      "❌ エラー (c.jpg): cannot identify image file c.jpg" = errorLine f msg :=
  ⟨(C4_failure_isolation.1 1200 (configFor "jpeg")
      ⟨[["d"]], [["d", "a.jpg"], ["d", "c.jpg"]], [(["d", "a.jpg"], ⟨4, 3⟩)]⟩
      [["d", "a.jpg"], ["d", "c.jpg"]]).1,
   (C4_failure_isolation.1 1200 (configFor "jpeg")
      ⟨[["d"]], [["d", "a.jpg"], ["d", "c.jpg"]], [(["d", "a.jpg"], ⟨4, 3⟩)]⟩
      [["d", "a.jpg"], ["d", "c.jpg"]]).2
      "❌ エラー (c.jpg): cannot identify image file c.jpg" (by decide)⟩

/-- C5: for every successfully converted file, the output path sits in the
fixed-name subdirectory of the source file's own directory — "webp" for
WebP output and "jpg" otherwise — and the filename handed to the resolver
(the name before any collision suffixing) is the source stem plus ".webp"
or ".jpg" respectively. -/
theorem C5_output_location_invariant :
    ∀ (mode_type : String) (max_width : Nat) (w : World) (image_path : Path)
      (w' : World) (p : Path),
      processOne max_width (configFor mode_type) w image_path = (w', .ok p) →
      p.dropLast = image_path.dropLast ++ [(configFor mode_type).output_folder_name] ∧
      ((configFor mode_type).save_format = "WebP" →
        (configFor mode_type).output_folder_name = "webp" ∧
        (configFor mode_type).save_extension = ".webp") ∧
      ((configFor mode_type).save_format ≠ "WebP" →
        (configFor mode_type).output_folder_name = "jpg" ∧
        (configFor mode_type).save_extension = ".jpg") ∧
      (p = image_path.dropLast ++ [(configFor mode_type).output_folder_name] ++
            [pyStem (pyName image_path) ++ (configFor mode_type).save_extension] ∨
        ∃ c, 1 ≤ c ∧
          p = candPath
            (image_path.dropLast ++ [(configFor mode_type).output_folder_name])
            (pyStem (pyStem (pyName image_path) ++ (configFor mode_type).save_extension))
            (pySuffix (pyStem (pyName image_path) ++ (configFor mode_type).save_extension))
            c) := by
  intro mode_type max_width w image_path w' p h
  obtain ⟨-, -, hgu⟩ := processOne_ok _ _ _ _ _ _ h
  have hshape := get_unique_filepath_shape _ _ _ _ hgu
  have hdrop : p.dropLast =
      image_path.dropLast ++ [(configFor mode_type).output_folder_name] := by
    rcases hshape with hp | ⟨c, _, hp⟩
    · rw [hp, List.dropLast_concat]
    · rw [hp, candPath, List.dropLast_concat]
  refine ⟨hdrop, ?_, ?_, ?_⟩
  · intro hfmt
    by_cases hm : mode_type = "webp" ∨ mode_type = "w"
    · simp [configFor, hm]
    · exfalso
      have hcfg : configFor mode_type = ⟨"JPEG", ".jpg", "jpg"⟩ := by
        simp [configFor, hm]
      rw [hcfg] at hfmt
      exact absurd hfmt (by decide)
  · intro hfmt
    by_cases hm : mode_type = "webp" ∨ mode_type = "w"
    · exfalso
      have hcfg : configFor mode_type = ⟨"WebP", ".webp", "webp"⟩ := by
        simp [configFor, hm]
      rw [hcfg] at hfmt
      exact hfmt rfl
    · simp [configFor, hm]
  · rcases hshape with hp | ⟨c, hc, hp⟩
    · exact Or.inl (by rw [hp, List.append_assoc])
    · exact Or.inr ⟨c, hc, hp⟩

/-- C5 witness: converting `d/a.jpg` to WebP writes `d/webp/a.webp`, whose
directory is `d/webp` and whose name is the stem "a" plus ".webp". -/
theorem C5_output_location_invariant_witness :
    (["d", "webp", "a.webp"] : Path).dropLast =
      (["d", "a.jpg"] : Path).dropLast ++ [(configFor "webp").output_folder_name] ∧
    ((configFor "webp").save_format = "WebP" →
      (configFor "webp").output_folder_name = "webp" ∧
      (configFor "webp").save_extension = ".webp") ∧
    ((configFor "webp").save_format ≠ "WebP" →
      (configFor "webp").output_folder_name = "jpg" ∧
      (configFor "webp").save_extension = ".jpg") ∧
    ((["d", "webp", "a.webp"] : Path) =
        (["d", "a.jpg"] : Path).dropLast ++ [(configFor "webp").output_folder_name] ++
          [pyStem (pyName (["d", "a.jpg"] : Path)) ++ (configFor "webp").save_extension] ∨
      ∃ c, 1 ≤ c ∧
        (["d", "webp", "a.webp"] : Path) = candPath
          ((["d", "a.jpg"] : Path).dropLast ++ [(configFor "webp").output_folder_name])
          (pyStem (pyStem (pyName (["d", "a.jpg"] : Path)) ++ (configFor "webp").save_extension))
          (pySuffix (pyStem (pyName (["d", "a.jpg"] : Path)) ++ (configFor "webp").save_extension))
          c) :=
  C5_output_location_invariant "webp" 1200
    ⟨[["d"]], [["d", "a.jpg"]], [(["d", "a.jpg"], ⟨10, 10⟩)]⟩
    ["d", "a.jpg"] _ _ rfl

/-- C8: per-file atomicity in the model: a failing file changes neither the
set of existing files nor the stored image contents (no partial output is
left behind), and a succeeding file adds exactly one new output file, at a
path that did not previously exist. -/
theorem C8_per_file_atomicity :
    ∀ (max_width : Nat) (cfg : SaveConfig) (w : World) (image_path : Path),
      (∀ w' e, processOne max_width cfg w image_path = (w', .error e) →
        w'.files = w.files ∧ w'.images = w.images) ∧
      (∀ w' p, processOne max_width cfg w image_path = (w', .ok p) →
        w'.files = w.files ++ [p] ∧ p ∉ w.files) := by
  intro max_width cfg w image_path
  constructor
  · intro w' e h
    exact processOne_error _ _ _ _ _ _ h
  · intro w' p h
    obtain ⟨h1, h2, -⟩ := processOne_ok _ _ _ _ _ _ h
    exact ⟨h1, h2⟩

/-- C8 witness: a corrupt file (no decodable content) leaves the file list
and image contents unchanged, and a valid file adds exactly its one output
file. -/
theorem C8_per_file_atomicity_witness :
    ((processOne 1200 (configFor "jpeg") ⟨[], [["d", "x.jpg"]], []⟩
        ["d", "x.jpg"]).1.files = [["d", "x.jpg"]] ∧
      (processOne 1200 (configFor "jpeg") ⟨[], [["d", "x.jpg"]], []⟩
        ["d", "x.jpg"]).1.images = []) ∧
    (processOne 1200 (configFor "jpeg")
        ⟨[], [["d", "a.jpg"]], [(["d", "a.jpg"], ⟨4, 3⟩)]⟩
        ["d", "a.jpg"]).1.files = [["d", "a.jpg"], ["d", "jpg", "a.jpg"]] ∧
    (["d", "jpg", "a.jpg"] : Path) ∉ ([["d", "a.jpg"]] : List Path) := by
  refine ⟨?_, ?_⟩
  · exact (C8_per_file_atomicity 1200 (configFor "jpeg")
      ⟨[], [["d", "x.jpg"]], []⟩ ["d", "x.jpg"]).1 _ _ rfl
  · have := (C8_per_file_atomicity 1200 (configFor "jpeg")
      ⟨[], [["d", "a.jpg"]], [(["d", "a.jpg"], ⟨4, 3⟩)]⟩ ["d", "a.jpg"]).2 _ _ rfl
    exact ⟨this.1, this.2⟩

/-! ### Lemmas about quote stripping -/

theorem dropWhile_eq_self_of (p : Char → Bool) (l : List Char)
    (h : ∀ c ∈ l, p c = false) : l.dropWhile p = l := by
  cases l with
  | nil => rfl
  | cons a t =>
    rw [List.dropWhile_cons, h a (List.mem_cons_self a t)]
    simp

theorem stripChar_no_occurrence (q : Char) (l : List Char)
    (h : ∀ c ∈ l, (c == q) = false) :
    pyStripChar q (String.mk l) = String.mk l := by
  have htl : (String.mk l).toList = l := rfl
  simp only [pyStripChar, htl]
  rw [dropWhile_eq_self_of _ l h,
    dropWhile_eq_self_of _ l.reverse (fun c hc => h c (List.mem_reverse.mp hc)),
    List.reverse_reverse]

theorem stripChar_wrap (q : Char) (l : List Char) :
    pyStripChar q (String.mk (q :: (l ++ [q]))) = pyStripChar q (String.mk l) := by
  have htl : (String.mk (q :: (l ++ [q]))).toList = q :: (l ++ [q]) := rfl
  have htl2 : (String.mk l).toList = l := rfl
  simp only [pyStripChar, htl, htl2]
  rw [List.dropWhile_cons]
  simp only [beq_self_eq_true, if_true]
  rw [List.dropWhile_append]
  cases hN : (l.dropWhile (fun c => c == q)).isEmpty with
  | true =>
    simp only [if_true]
    rw [List.isEmpty_iff] at hN
    rw [hN]
    simp
  | false =>
    simp only [Bool.false_eq_true, if_false]
    rw [List.reverse_append]
    simp only [List.reverse_singleton, List.singleton_append, List.dropWhile_cons,
      beq_self_eq_true, if_true]

theorem cleanPath_no_quotes (s : String)
    (h : ∀ c ∈ s.data, c ≠ dq ∧ c ≠ sq) : cleanPath s = s := by
  obtain ⟨l⟩ := s
  have hd : ∀ c ∈ l, (c == dq) = false := fun c hc =>
    beq_eq_false_iff_ne.mpr (h c hc).1
  have hs : ∀ c ∈ l, (c == sq) = false := fun c hc =>
    beq_eq_false_iff_ne.mpr (h c hc).2
  rw [cleanPath, stripChar_no_occurrence dq l hd, stripChar_no_occurrence sq l hs]

/-- C7 counterexample: the pipeline does not trim whitespace.  The raw
string `" a.jpg"` (with a leading space) is left as-is by the cleaning
step, so even when the file `a.jpg` exists the input is treated as a
non-existing path and ignored, where the claimed trimming would have
produced the candidate `a.jpg`. -/
theorem C7_counterexample :
    cleanPath " a.jpg" = " a.jpg" ∧ (" a.jpg" : String) ≠ "a.jpg" ∧
    collect ⟨[], [["a.jpg"]], []⟩ [" a.jpg"] =
      ([], [ignoreMsg " a.jpg"]) ∧
    collect ⟨[], [["a.jpg"]], []⟩ ["a.jpg"] = ([["a.jpg"]], []) := by
  refine ⟨by decide, by decide, by decide, by decide⟩

/-- C7 (amended): each raw path string is stripped of surrounding
double-quote characters and then of surrounding single-quote characters —
whitespace is preserved — and a string that is empty after stripping is
silently skipped: no diagnostic and no candidate. -/
theorem C7_input_trimming_amended :
    (∀ s : String, (∀ c ∈ s.data, c ≠ dq ∧ c ≠ sq) → cleanPath s = s) ∧
    (∀ s : String, cleanPath (String.mk (dq :: (s.data ++ [dq]))) = cleanPath s) ∧
    (∀ s : String, (∀ c ∈ s.data, c ≠ dq ∧ c ≠ sq) →
      cleanPath (String.mk (sq :: (s.data ++ [sq]))) = s) ∧
    (∀ (w : World) (acc : List Path × List String) (s : String),
      cleanPath s = "" → collectStep w acc s = acc) := by
  refine ⟨cleanPath_no_quotes, ?_, ?_, ?_⟩
  · intro s
    rw [cleanPath, cleanPath, stripChar_wrap dq s.data]
  · intro s h
    have hnodq : ∀ c ∈ sq :: (s.data ++ [sq]), (c == dq) = false := by
      intro c hc
      rcases List.mem_cons.mp hc with rfl | hc
      · decide
      · rcases List.mem_append.mp hc with hc | hc
        · exact beq_eq_false_iff_ne.mpr (h c hc).1
        · simp only [List.mem_singleton] at hc
          subst hc; decide
    have hnosq : ∀ c ∈ s.data, (c == sq) = false := fun c hc =>
      beq_eq_false_iff_ne.mpr (h c hc).2
    rw [cleanPath, stripChar_no_occurrence dq _ hnodq, stripChar_wrap sq s.data,
      stripChar_no_occurrence sq s.data hnosq]
  · intro w acc s hempty
    simp [collectStep, hempty]

/-- C7 witness: the quoted input `"b.png"` is stripped to `b.png`, the
single-quoted input is too, the unquoted whitespace-bearing input ` x `
is kept verbatim, and the pure-quote input `""` is skipped silently. -/
theorem C7_input_trimming_amended_witness :
    cleanPath " x " = " x " ∧
    cleanPath (String.mk (dq :: (" x ".data ++ [dq]))) = " x " ∧
    cleanPath (String.mk (sq :: (" x ".data ++ [sq]))) = " x " ∧
    collectStep ⟨[], [], []⟩ ([], []) (String.mk [dq, dq]) = ([], []) := by
  refine ⟨C7_input_trimming_amended.1 " x " (by decide), ?_, ?_, ?_⟩
  · rw [C7_input_trimming_amended.2.1 " x "]
    exact C7_input_trimming_amended.1 " x " (by decide)
  · exact C7_input_trimming_amended.2.2.1 " x " (by decide)
  · exact C7_input_trimming_amended.2.2.2 ⟨[], [], []⟩ ([], [])
      (String.mk [dq, dq]) (by decide)

/-! ### Lemmas about collection -/

theorem iterdir_filter (w : World) (d : Path)
    (hdisj : ∀ p ∈ w.dirs, p ∉ w.files) :
    (w.iterdir d).filter
        (fun child => decide (child ∈ w.files) && isSupported child) =
      w.files.filter (fun c => isChildOf d c && isSupported c) := by
  simp only [World.iterdir]
  rw [List.filter_filter, List.filter_append]
  have hdirs : w.dirs.filter
      (fun a => (decide (a ∈ w.files) && isSupported a) && isChildOf d a) = [] := by
    rw [List.filter_eq_nil_iff]
    intro a ha
    have : a ∉ w.files := hdisj a ha
    simp [this]
  rw [hdirs, List.append_nil]
  apply List.filter_congr
  intro a ha
  have : a ∈ w.files := ha
  simp [this, Bool.and_comm]

/-- C6 counterexample: an input naming an existing file with an
unsupported extension produces no "ignored" diagnostic — it is skipped
silently (src/img.py lines 66-70 only print the diagnostic when the path
is neither a directory nor a file) — and a directory holding one
supported and one unsupported file yields one candidate and zero
diagnostics, not one diagnostic per unsupported file. -/
theorem C6_counterexample :
    parsePath "a.txt" ∈ ([["a.txt"]] : List Path) ∧
    isSupported (parsePath "a.txt") = false ∧
    collect ⟨[], [["a.txt"]], []⟩ ["a.txt"] = ([], []) ∧
    collect ⟨[["d"]], [["d", "a.jpg"], ["d", "b.txt"]], []⟩ ["d"] =
      ([["d", "a.jpg"]], []) := by
  refine ⟨by decide, by decide, by decide, by decide⟩

/-- C6 (amended): an "ignored" diagnostic is emitted exactly for inputs
that name neither an existing directory nor an existing file; an existing
file with an unsupported extension is skipped silently (no diagnostic, no
candidate); and for a directory the collector returns exactly its
supported-extension files, in enumeration order, with no diagnostics for
the unsupported ones. -/
theorem C6_ignored_input_diagnostics_amended :
    ∀ (w : World) (acc : List Path × List String) (s : String),
      (∀ p ∈ w.dirs, p ∉ w.files) →
      cleanPath s ≠ "" →
      ((parsePath (cleanPath s) ∉ w.dirs → parsePath (cleanPath s) ∉ w.files →
          collectStep w acc s = (acc.1, acc.2 ++ [ignoreMsg (cleanPath s)])) ∧
       (parsePath (cleanPath s) ∉ w.dirs → parsePath (cleanPath s) ∈ w.files →
          isSupported (parsePath (cleanPath s)) = false →
          collectStep w acc s = acc) ∧
       (parsePath (cleanPath s) ∈ w.dirs →
          collectStep w acc s =
            (acc.1 ++ w.files.filter
                (fun c => isChildOf (parsePath (cleanPath s)) c && isSupported c),
              acc.2))) := by
  intro w acc s hdisj hne
  refine ⟨?_, ?_, ?_⟩
  · intro hd hf
    simp only [collectStep]
    rw [if_neg hne, if_neg hd, if_neg hf]
  · intro hd hf hsup
    simp only [collectStep]
    rw [if_neg hne, if_neg hd, if_pos hf, if_neg (by rw [hsup]; decide)]
  · intro hd
    simp only [collectStep]
    rw [if_neg hne, if_pos hd, iterdir_filter w _ hdisj]

/-- C6 witness: a non-existing input gets the diagnostic, an existing
unsupported file is skipped silently, and a directory with one supported
and one unsupported child yields exactly the supported child. -/
theorem C6_ignored_input_diagnostics_amended_witness :
    collectStep ⟨[], [], []⟩ ([], []) "nope" = ([], [ignoreMsg "nope"]) ∧
    collectStep ⟨[], [["a.txt"]], []⟩ ([], []) "a.txt" = ([], []) ∧
    collectStep ⟨[["d"]], [["d", "a.jpg"], ["d", "b.txt"]], []⟩ ([], []) "d" =
      ([["d", "a.jpg"]], []) := by
  refine ⟨?_, ?_, ?_⟩
  · exact (C6_ignored_input_diagnostics_amended ⟨[], [], []⟩ ([], []) "nope"
      (by decide) (by decide)).1 (by decide) (by decide)
  · exact (C6_ignored_input_diagnostics_amended ⟨[], [["a.txt"]], []⟩ ([], []) "a.txt"
      (by decide) (by decide)).2.1 (by decide) (by decide) (by decide)
  · exact ((C6_ignored_input_diagnostics_amended
      ⟨[["d"]], [["d", "a.jpg"], ["d", "b.txt"]], []⟩ ([], []) "d"
      (by decide) (by decide)).2.2 (by decide)).trans (by decide)

end ImgTool
